import Mathlib

set_option autoImplicit false

namespace Agent

/-! Shallow embedding of the grafana-agent subsystems the specification covers:
the prometheus.relabel component with its LRU cache
(src/component/prometheus/relabel/relabel.go), the metrics Unregisterer
(src/pkg/util/unregisterer.go), and the import config node
(src/pkg/flow/internal/controller/node_config_import.go). -/

/-! ## prometheus.relabel (src/component/prometheus/relabel/relabel.go) -/

/-- Label sets (prometheus model labels.Labels): list of name/value pairs. -/
abbrev Labels := List (String × String)

/-- Labels.Copy: a value copy of the label slice (value-identical). -/
def labelsCopy (l : Labels) : Labels := l

/-- Labels.IsEmpty. -/
def labelsIsEmpty (l : Labels) : Bool := l.isEmpty

/-- The stale-marker bit pattern value.StaleNaN from prometheus model value. -/
def staleNaN : Nat := 0x7ff0000000000002

/-- value.IsStaleNaN compares the float64 bit pattern of the sample value with
staleNaN; sample values are modelled throughout by their IEEE-754 bit pattern. -/
def isStaleNaN (v : Nat) : Bool := v == staleNaN

/-- labelstore.Series: global ref id, label set, timestamp and sample value
(as its bit pattern). The struct is defined in service/labelstore, outside src;
its fields are the ones relabel.go reads: GlobalID, Lbls, Ts, Value. -/
structure Series where
  globalID : Nat
  lbls : Labels
  ts : Int
  value : Nat
deriving DecidableEq, Repr

/-- The LRU cache lru.Cache from hashicorp/golang-lru/v2, instantiated at
key uint64 and value *labelstore.Series. Entries are listed most recently
used first; the value Option Series models the pointer, with none standing
for the nil pointer that addToCache stores as the drop sentinel. -/
structure LruCache where
  cap : Nat
  entries : List (Nat × Option Series)
deriving DecidableEq, Repr

/-- Cache.Get: look up a key and mark its entry most recently used. -/
def lruGet (c : LruCache) (k : Nat) : Option (Option Series) × LruCache :=
  match c.entries.find? (fun e => e.1 == k) with
  | none => (none, c)
  | some e => (some e.2, ⟨c.cap, e :: c.entries.filter (fun x => x.1 != k)⟩)

/-- Cache.Add: insert or replace as the most recent entry, evicting the
least recently used entry when the cache grows beyond its capacity. -/
def lruAdd (c : LruCache) (k : Nat) (v : Option Series) : LruCache :=
  let moved := (k, v) :: c.entries.filter (fun x => x.1 != k)
  ⟨c.cap, if c.cap < moved.length then moved.dropLast else moved⟩

/-- Cache.Remove. -/
def lruRemove (c : LruCache) (k : Nat) : LruCache :=
  ⟨c.cap, c.entries.filter (fun x => x.1 != k)⟩

/-- Cache.Len. -/
def lruLen (c : LruCache) : Nat := c.entries.length

/-- Pure lookup (no recency effect), used to state specifications. -/
def lruLookup (c : LruCache) (k : Nat) : Option (Option Series) :=
  (c.entries.find? (fun e => e.1 == k)).map (·.2)

/-- The mutable state of relabel.Component touched by Component.relabel:
the cache and the counters (prometheus counters hold the count). -/
structure RelabelState where
  cache : LruCache
  cacheHits : Nat
  cacheMisses : Nat
  cacheDeletes : Nat
  cacheSizeGauge : Nat
deriving DecidableEq, Repr

/-- The component state right after New/Update: a fresh cache of the
configured capacity and zeroed counters. -/
def relabelInitState (cacheSize : Nat) : RelabelState :=
  ⟨⟨cacheSize, []⟩, 0, 0, 0, 0⟩

/-- Modelled from the spec: labelstore.LabelStore.ConvertToSeries
(service/labelstore is outside src). It builds the series for the relabelled
label set; the label store assigns global ref ids by a fingerprint function
fp of the label set (glossary: a 64-bit hash identifying a specific label set). -/
def convertToSeries (fp : Labels → Nat) (ts : Int) (v : Nat) (l : Labels) : Series :=
  ⟨fp l, l, ts, v⟩

/-- Component.getFromCache. -/
def getFromCache (st : RelabelState) (id : Nat) : Option (Option Series) × RelabelState :=
  let r := lruGet st.cache id
  (r.1, { st with cache := r.2 })

/-- Component.deleteFromCache. -/
def deleteFromCache (st : RelabelState) (id : Nat) : RelabelState :=
  { st with cacheDeletes := st.cacheDeletes + 1, cache := lruRemove st.cache id }

/-- Component.addToCache: a dropped series is stored as the nil sentinel. -/
def addToCache (st : RelabelState) (originalID : Nat) (series : Series) (keep : Bool) :
    RelabelState :=
  if keep then { st with cache := lruAdd st.cache originalID (some series) }
  else { st with cache := lruAdd st.cache originalID none }

/-- Component.relabel. The parameter process stands for
relabel.Process(lbls, c.mrc...) at the component's fixed rule set, returning
the relabelled labels and whether the series is kept; fp is the label store's
fingerprint. A result of none is the nil *labelstore.Series pointer. -/
def componentRelabel (process : Labels → Labels × Bool) (fp : Labels → Nat)
    (st : RelabelState) (series : Series) : Option Series × RelabelState :=
  let g := getFromCache st series.globalID
  match g.1 with
  | some newSeries =>
    let st2 := { g.2 with cacheHits := g.2.cacheHits + 1 }
    let st3 := if isStaleNaN series.value then deleteFromCache st2 series.globalID else st2
    (newSeries, st3)
  | none =>
    let pr := process (labelsCopy series.lbls)
    let st2 := { g.2 with cacheMisses := g.2.cacheMisses + 1 }
    let newSeries := convertToSeries fp series.ts series.value pr.1
    let st3 := addToCache st2 series.globalID newSeries pr.2
    let st4 := if isStaleNaN series.value then deleteFromCache st3 series.globalID else st3
    (some newSeries, { st4 with cacheSizeGauge := lruLen st4.cache })

/-- Possible outcomes of the interceptor append hook for one sample. -/
inductive HookResult where
  | errExited
  | panicNilDeref
  | dropped
  | forwarded (l : Labels)
deriving DecidableEq, Repr

/-- The WithAppendHook closure installed in New: after the exited check it calls
Component.relabel and tests newseries.Lbls.IsEmpty(). When relabel returns the
nil pointer (the cached drop sentinel), that field access dereferences nil:
a Go runtime panic, modelled as panicNilDeref. An empty relabelled label set is
reported dropped (return 0, nil); otherwise the series is forwarded to next. -/
def appendHook (process : Labels → Labels × Bool) (fp : Labels → Nat) (exited : Bool)
    (st : RelabelState) (series : Series) : HookResult × RelabelState :=
  if exited then (.errExited, st)
  else
    match componentRelabel process fp st series with
    | (none, st1) => (.panicNilDeref, st1)
    | (some ns, st1) =>
      if labelsIsEmpty ns.lbls then (.dropped, st1) else (.forwarded ns.lbls, st1)

/-- The output series of the cached path, abstracted to the kept label set
(none means the sample is dropped: nil series or empty relabelled labels). -/
def pipelineOutput : Option Series → Option Labels
  | none => none
  | some s => if s.lbls = [] then none else some s.lbls

/-- Applying the relabel rules directly to a sample's labels; per the spec,
rule application that yields zero labels is a drop. -/
def directOutput (process : Labels → Labels × Bool) (l : Labels) : Option Labels :=
  let pr := process l
  if pr.2 = true ∧ pr.1 ≠ [] then some pr.1 else none

/-- Feed a sequence of samples through Component.relabel, collecting the
abstracted output of each sample. -/
def runSamples (process : Labels → Labels × Bool) (fp : Labels → Nat) :
    RelabelState → List Series → List (Option Labels) × RelabelState
  | st, [] => ([], st)
  | st, s :: rest =>
    let r := componentRelabel process fp st s
    let next := runSamples process fp r.2 rest
    (pipelineOutput r.1 :: next.1, next.2)

/-! ## util.Unregisterer (src/pkg/util/unregisterer.go) -/

/-- A prometheus.Collector, identified abstractly by a number. Which
descriptors a collector advertises over its Describe channel is modelled by
a count function passed to the operations below. -/
abbrev Collector := Nat

/-- The wrapped prometheus.Registerer, abstracted to a state type with a
register operation (which can fail) and an unregister operation returning
whether the collector was removed. -/
structure WrapReg (σ : Type) where
  regOp : σ → Collector → Except String σ
  unregOp : σ → Collector → Bool × σ

/-- util.Unregisterer: the wrapped registerer (none models a nil wrap) and
the remembered collector set cs (a Go map used as a set, kept duplicate-free). -/
structure Unregisterer (σ : Type) where
  wrap : Option σ
  cs : List Collector
deriving DecidableEq, Repr

/-- isUncheckedCollector: true when the collector advertises zero descriptors
on its Describe channel; dc gives the descriptor count. -/
def isUncheckedCollector (dc : Collector → Nat) (c : Collector) : Bool := dc c == 0

/-- Go map/set insertion u.cs[c] = struct{}{}. -/
def csInsert (c : Collector) (cs : List Collector) : List Collector :=
  if c ∈ cs then cs else c :: cs

/-- Unregisterer.Register. -/
def uregRegister {σ : Type} (W : WrapReg σ) (dc : Collector → Nat)
    (u : Unregisterer σ) (c : Collector) : Option String × Unregisterer σ :=
  match u.wrap with
  | none => (none, u)
  | some w =>
    match W.regOp w c with
    | .error e => (some e, u)
    | .ok w2 =>
      if isUncheckedCollector dc c then (none, { u with wrap := some w2 })
      else (none, ⟨some w2, csInsert c u.cs⟩)

/-- Unregisterer.Unregister. -/
def uregUnregister {σ : Type} (W : WrapReg σ) (u : Unregisterer σ) (c : Collector) :
    Bool × Unregisterer σ :=
  match u.wrap with
  | none => (false, u)
  | some w =>
    let r := W.unregOp w c
    if r.1 then (true, ⟨some r.2, u.cs.filter (fun x => x != c)⟩)
    else (false, { u with wrap := some r.2 })

/-- Loop body of Unregisterer.UnregisterAll: iterate the remembered set,
collecting one failure per collector whose unregister returned false (the
describeCollector message is abstracted to the collector id). -/
def unregisterAllGo {σ : Type} (W : WrapReg σ) :
    List Collector → Unregisterer σ → List Collector × Unregisterer σ
  | [], u => ([], u)
  | c :: rest, u =>
    let r := uregUnregister W u c
    let next := unregisterAllGo W rest r.2
    (if r.1 then next.1 else c :: next.1, next.2)

/-- Unregisterer.UnregisterAll: an empty failure list models a nil multi-error. -/
def unregisterAll {σ : Type} (W : WrapReg σ) (u : Unregisterer σ) :
    List Collector × Unregisterer σ :=
  unregisterAllGo W u.cs u

/-! ## ImportConfigNode (src/pkg/flow/internal/controller/node_config_import.go) -/

/-- Module source text, one Char per byte (ASCII). Offsets stored in the AST
are byte offsets into this text. -/
abbrev Content := List Char

/-- Go slicing content[lo:hi]; well-defined when lo ≤ hi ≤ length (Go panics
otherwise; the claims below carry that bound where it matters). -/
def goSlice (content : Content) (lo hi : Nat) : Content :=
  (content.drop lo).take (hi - lo)

/-- Top-level statements of parsed imported content, as far as the import node
inspects them: a declare block with its label and the byte offsets of its two
curly braces, an import.file/git/http block with its label, or anything else. -/
inductive ModStmt where
  | declareBlock (label : String) (lcurly rcurly : Nat)
  | importBlock (label : String)
  | otherStmt
deriving DecidableEq, Repr

/-- The fields of ImportConfigNode that the content-update protocol touches.
importedContent and the children map are Go maps (association list / label
list); a child node is represented by its label, which is all the claims need. -/
structure ImportNodeState where
  importedContent : List (String × Content)
  children : List String
  inContentUpdate : Bool
  lastUpdateTime : Nat
deriving DecidableEq, Repr

/-- Observable events of the content-update protocol, in program order:
evaluation of the child import nodes, a call of OnComponentUpdate recording
the value of inContentUpdate at call time, the clearing of the flag, and a
parse failure. -/
inductive ImportEvent where
  | evalChildren
  | notifyDirty (flagWhenCalled : Bool)
  | clearFlag
  | parseFailed
deriving DecidableEq, Repr

/-- Association-list lookup of a Go map. -/
def mapFind (m : List (String × Content)) (k : String) : Option Content :=
  (m.find? (fun e => e.1 == k)).map (·.2)

/-- Go map assignment m[k] = v (overwrite). -/
def mapSet (m : List (String × Content)) (k : String) (v : Content) :
    List (String × Content) :=
  (k, v) :: m.filter (fun e => e.1 != k)

/-- ImportConfigNode.processDeclareBlock: a redefined declare label is rejected
with a logged error; otherwise the map gains the Go slice
content[stmt.LCurlyPos.Offset+1 : stmt.RCurlyPos.Offset-1] of the module text. -/
def processDeclareBlock (st : ImportNodeState) (label : String) (lcurly rcurly : Nat)
    (content : Content) : ImportNodeState :=
  if (mapFind st.importedContent label).isSome then st
  else
    let body := goSlice content (lcurly + 1) (rcurly - 1)
    { st with importedContent := mapSet st.importedContent label body }

/-- ImportConfigNode.processImportBlock: a redefined import label is rejected;
otherwise a child import node is created under this label. -/
def processImportBlock (st : ImportNodeState) (label : String) : ImportNodeState :=
  if label ∈ st.children then st
  else { st with children := label :: st.children }

/-- ImportConfigNode.processNodeBody: walk the parsed statements; anything that
is not a declare or import block is rejected with a logged error. -/
def processNodeBody (st : ImportNodeState) (stmts : List ModStmt) (content : Content) :
    ImportNodeState :=
  stmts.foldl (fun s stmt =>
    match stmt with
    | .declareBlock lb l r => processDeclareBlock s lb l r content
    | .importBlock lb => processImportBlock s lb
    | .otherStmt => s) st

/-- ImportConfigNode.onContentUpdate. parseF models parser.ParseFile on the
module text (none is a parse error); now models time.Now() for the
lastUpdateTime stamp. Returns the new state and the events in program order. -/
def onContentUpdate (parseF : Content → Option (List ModStmt)) (now : Nat)
    (st : ImportNodeState) (content : Content) : ImportNodeState × List ImportEvent :=
  let st1 : ImportNodeState :=
    { st with inContentUpdate := true, importedContent := [], children := [] }
  match parseF content with
  | none => (st1, [.parseFailed])
  | some stmts =>
    let st2 := processNodeBody st1 stmts content
    let st3 := { st2 with lastUpdateTime := now }
    let st4 := { st3 with inContentUpdate := false }
    (st4, [.evalChildren, .notifyDirty st3.inContentUpdate, .clearFlag])

/-- ImportConfigNode.OnChildrenContentUpdate: ingest the child's imported
declares under the namespaced keys childLabel.declareLabel, then notify the
controller unless this node's own content update is still in flight. -/
def onChildrenContentUpdate (st : ImportNodeState) (childLabel : String)
    (childContent : List (String × Content)) : ImportNodeState × List ImportEvent :=
  let merged := childContent.foldl
    (fun m kv => mapSet m (childLabel ++ "." ++ kv.1) kv.2) st.importedContent
  let st1 := { st with importedContent := merged }
  if st.inContentUpdate then (st1, []) else (st1, [.notifyDirty st.inContentUpdate])

/-- Apply a sequence of child content-update deliveries to a node, collecting
every event the node emits. -/
def applyChildrenUpdates :
    ImportNodeState → List (String × List (String × Content)) →
    ImportNodeState × List ImportEvent
  | st, [] => (st, [])
  | st, (cl, cc) :: rest =>
    let r1 := onChildrenContentUpdate st cl cc
    let r2 := applyChildrenUpdates r1.1 rest
    (r2.1, r1.2 ++ r2.2)

/-- One revision of nested imported content: the child runs its own
onContentUpdate, and every OnComponentUpdate notification the child emits is
delivered to the root as OnChildrenContentUpdate (the child is wired to the
root's sink). Returns the root's final state and the notifications the root
itself emits to the controller. -/
def deliverChildEvents (childLabel : String) (childContent : List (String × Content)) :
    ImportNodeState → List ImportEvent → ImportNodeState × List ImportEvent
  | root, [] => (root, [])
  | root, ev :: rest =>
    match ev with
    | .notifyDirty _ =>
      let r1 := onChildrenContentUpdate root childLabel childContent
      let r2 := deliverChildEvents childLabel childContent r1.1 rest
      (r2.1, r1.2 ++ r2.2)
    | _ => deliverChildEvents childLabel childContent root rest

/-- A nested revision seen from the root import node. -/
def childRevision (parseF : Content → Option (List ModStmt)) (now : Nat)
    (root child : ImportNodeState) (childLabel : String) (content : Content) :
    ImportNodeState × List ImportEvent :=
  let c := onContentUpdate parseF now child content
  deliverChildEvents childLabel c.1.importedContent root c.2

/-! ## Specification-side definitions and concrete instances -/

/-- The text of the module strictly between a declare block's braces: every
byte after the opening brace and before the closing brace (the spec reading
of the verbatim textual body delimited by the stored brace offsets). -/
def strictlyBetweenBraces (content : Content) (lcurly rcurly : Nat) : Content :=
  goSlice content (lcurly + 1) rcurly

/-- A rule set that keeps every series unchanged. -/
def keepAllRules : Labels → Labels × Bool := fun l => (l, true)

/-- A rule set that drops every series (relabel.Process returns nil, false). -/
def dropAllRules : Labels → Labels × Bool := fun _ => ([], false)

/-- A concrete fingerprint for the single label set used in witnesses. -/
def wFp : Labels → Nat := fun l => if l = [("a", "b")] then 1 else 0

/-- Concrete samples: two live samples of one series, then a stale marker for
it, then another live sample (which must re-run the rules). -/
def wSamples : List Series :=
  [⟨1, [("a", "b")], 0, 5⟩, ⟨1, [("a", "b")], 1, 6⟩,
   ⟨1, [("a", "b")], 2, staleNaN⟩, ⟨1, [("a", "b")], 3, 7⟩]

/-- Constant fingerprint used for the single dropped series of the S6 scenario. -/
def cFp : Labels → Nat := fun _ => 7

/-- The single series of the S6 drop-caching scenario. -/
def sEnvDev : Series := ⟨7, [("env", "dev")], 0, 42⟩

/-- The component state after the first dropped sample of sEnvDev, with h cache
hits so far: the cache holds the nil drop sentinel under fingerprint 7. -/
def stAfterDrop (h : Nat) : RelabelState := ⟨⟨100000, [(7, none)]⟩, h, 1, 0, 1⟩

/-- Module text for the declare off-by-one counterexample:
declare "a" {x} with the braces at byte offsets 12 and 14. -/
def c4content : Content := "declare \x22a\x22 \x7bx\x7d".data

/-- A fresh import node state. -/
def emptyImportNode : ImportNodeState := ⟨[], [], false, 0⟩

/-- A parse function that accepts everything as an empty module. -/
def parseOkNil : Content → Option (List ModStmt) := fun _ => some []

/-- A parse function that rejects everything. -/
def parseNone : Content → Option (List ModStmt) := fun _ => none

/-- A parse function that rejects empty content and accepts anything else as an
empty module. -/
def parseNonEmpty : Content → Option (List ModStmt) :=
  fun c => if c.isEmpty then none else some []

/-- A concrete wrapped registrar over a collector-list state: register always
succeeds; unregister always reports removal (idempotent, like the prometheus
registry in Test_UnregisterTwice). -/
def wReg : WrapReg (List Collector) :=
  ⟨fun s c => .ok (c :: s), fun s c => (true, s.filter (fun x => x != c))⟩

/-- A descriptor count: collector 0 is unchecked, all others advertise one. -/
def wDc : Collector → Nat := fun c => if c = 0 then 0 else 1

/-- Cache entries consistent with a rule set, a fingerprint and a collection L
of label sets: the entry is keyed by the fingerprint of some input label set in
L and stores either the nil drop sentinel (when the rules drop that label set)
or a series carrying exactly the relabelled labels. -/
def EntryOkOn (process : Labels → Labels × Bool) (fp : Labels → Nat) (L : List Labels)
    (e : Nat × Option Series) : Prop :=
  ∃ l ∈ L, e.1 = fp l ∧
    (((process l).2 = false ∧ e.2 = none) ∨
     ∃ s, (process l).2 = true ∧ e.2 = some s ∧ s.lbls = (process l).1)

/-- Every cache entry is consistent in the sense of EntryOkOn. -/
def CacheOkOn (process : Labels → Labels × Bool) (fp : Labels → Nat) (L : List Labels)
    (c : LruCache) : Prop :=
  ∀ e ∈ c.entries, EntryOkOn process fp L e

/-! ## Helper lemmas about the LRU cache -/

theorem lruGet_mem {c : LruCache} {k : Nat} {e : Nat × Option Series}
    (h : e ∈ (lruGet c k).2.entries) : e ∈ c.entries := by
  unfold lruGet at h
  rcases hf : c.entries.find? (fun x => x.1 == k) with _ | a
  · rw [hf] at h; exact h
  · rw [hf] at h
    rcases List.mem_cons.mp h with rfl | hmem
    · exact List.mem_of_find?_eq_some hf
    · exact List.mem_of_mem_filter hmem

theorem lruGet_fst_some {c : LruCache} {k : Nat} {v : Option Series}
    (h : (lruGet c k).1 = some v) : ∃ e ∈ c.entries, e.1 = k ∧ e.2 = v := by
  unfold lruGet at h
  rcases hf : c.entries.find? (fun x => x.1 == k) with _ | a
  · rw [hf] at h; cases h
  · rw [hf] at h
    refine ⟨a, List.mem_of_find?_eq_some hf, ?_, ?_⟩
    · have h2 := List.find?_some hf
      simpa using h2
    · cases h; rfl

theorem lruGet_fst_none {c : LruCache} {k : Nat}
    (h : lruLookup c k = none) : (lruGet c k).1 = none := by
  unfold lruLookup at h
  unfold lruGet
  rcases hf : c.entries.find? (fun x => x.1 == k) with _ | a
  · rw [hf]
  · rw [hf] at h; cases h

theorem lruAdd_mem {c : LruCache} {k : Nat} {v : Option Series} {e : Nat × Option Series}
    (h : e ∈ (lruAdd c k v).entries) : e = (k, v) ∨ e ∈ c.entries := by
  unfold lruAdd at h
  simp only at h
  have hmoved : e ∈ (k, v) :: c.entries.filter (fun x => x.1 != k) := by
    by_cases hc : c.cap < ((k, v) :: c.entries.filter (fun x => x.1 != k)).length
    · rw [if_pos hc] at h
      exact List.dropLast_sublist _ |>.subset h
    · rw [if_neg hc] at h; exact h
  rcases List.mem_cons.mp hmoved with rfl | hmem
  · exact Or.inl rfl
  · exact Or.inr (List.mem_of_mem_filter hmem)

theorem lruRemove_mem {c : LruCache} {k : Nat} {e : Nat × Option Series}
    (h : e ∈ (lruRemove c k).entries) : e ∈ c.entries ∧ e.1 ≠ k := by
  unfold lruRemove at h
  have := List.mem_filter.mp h
  refine ⟨this.1, ?_⟩
  simpa using this.2

theorem lruRemove_lookup_none (c : LruCache) (k : Nat) :
    lruLookup (lruRemove c k) k = none := by
  unfold lruLookup
  have : (lruRemove c k).entries.find? (fun e => e.1 == k) = none := by
    rw [List.find?_eq_none]
    intro e he
    have := (lruRemove_mem he).2
    simpa using this
  rw [this]; rfl

theorem lruAdd_lookup_self {c : LruCache} (hcap : 0 < c.cap) (k : Nat) (v : Option Series) :
    lruLookup (lruAdd c k v) k = some v := by
  unfold lruAdd lruLookup
  simp only
  rcases hflt : c.entries.filter (fun x => x.1 != k) with _ | ⟨a, as⟩
  · rw [hflt]
    have hlen : ¬ c.cap < ([(k, v)] : List (Nat × Option Series)).length := by
      simp only [List.length_singleton]
      omega
    rw [if_neg hlen]
    simp [List.find?]
  · rw [hflt]
    by_cases hc : c.cap < ((k, v) :: a :: as).length
    · rw [if_pos hc]
      rw [List.dropLast_cons₂]
      simp [List.find?]
    · rw [if_neg hc]
      simp [List.find?]

theorem lruGet_snd_of_none {c : LruCache} {k : Nat}
    (h : (lruGet c k).1 = none) : (lruGet c k).2 = c := by
  unfold lruGet at h ⊢
  rcases hf : c.entries.find? (fun x => x.1 == k) with _ | a
  · rw [hf]
  · rw [hf] at h; cases h

/-- One Component.relabel call preserves cache consistency and produces the
same abstract output as direct rule application on the sample's labels. -/
theorem relabel_step (process : Labels → Labels × Bool) (fp : Labels → Nat) (L : List Labels)
    (hinj : ∀ l1 ∈ L, ∀ l2 ∈ L, fp l1 = fp l2 → l1 = l2)
    (hdrop : ∀ l ∈ L, (process l).2 = false → (process l).1 = [])
    (st : RelabelState) (s : Series) (hs : s.lbls ∈ L) (hid : s.globalID = fp s.lbls)
    (hc : CacheOkOn process fp L st.cache) :
    pipelineOutput (componentRelabel process fp st s).1 = directOutput process s.lbls ∧
    CacheOkOn process fp L (componentRelabel process fp st s).2.cache := by
  rcases hg : (lruGet st.cache s.globalID).1 with _ | v
  · -- cache miss: the rules are applied and the result is stored
    have hsnd := lruGet_snd_of_none hg
    have houts : (componentRelabel process fp st s).1 =
        some (convertToSeries fp s.ts s.value (process s.lbls).1) := by
      simp only [componentRelabel, getFromCache, hg, labelsCopy]
    have hcache : (componentRelabel process fp st s).2.cache =
        (if isStaleNaN s.value then
          lruRemove (lruAdd st.cache s.globalID
            (if (process s.lbls).2 then
              some (convertToSeries fp s.ts s.value (process s.lbls).1) else none))
            s.globalID
         else
          lruAdd st.cache s.globalID
            (if (process s.lbls).2 then
              some (convertToSeries fp s.ts s.value (process s.lbls).1) else none)) := by
      simp only [componentRelabel, getFromCache, hg, hsnd, labelsCopy, addToCache,
        deleteFromCache]
      rcases (process s.lbls).2 with _ | _ <;>
        rcases isStaleNaN s.value with _ | _ <;> simp
    constructor
    · rw [houts]
      simp only [pipelineOutput, directOutput, convertToSeries]
      rcases hk : (process s.lbls).2 with _ | _
      · have hnil := hdrop s.lbls hs hk
        simp [hnil]
      · by_cases hr : (process s.lbls).1 = []
        · simp [hr]
        · simp [hr]
    · intro e he
      rw [hcache] at he
      have he2 : e = (s.globalID,
          (if (process s.lbls).2 then
            some (convertToSeries fp s.ts s.value (process s.lbls).1) else none)) ∨
          e ∈ st.cache.entries := by
        by_cases hst : isStaleNaN s.value
        · rw [if_pos hst] at he
          exact lruAdd_mem (lruRemove_mem he).1
        · rw [if_neg hst] at he
          exact lruAdd_mem he
      rcases he2 with rfl | hold
      · refine ⟨s.lbls, hs, hid, ?_⟩
        rcases hk : (process s.lbls).2 with _ | _
        · refine Or.inl ⟨rfl, ?_⟩
          simp
        · refine Or.inr ⟨convertToSeries fp s.ts s.value (process s.lbls).1, rfl, ?_, rfl⟩
          simp
      · exact hc e hold
  · -- cache hit: the cached entry is returned
    obtain ⟨e, hmem, hek, hev⟩ := lruGet_fst_some hg
    have houts : (componentRelabel process fp st s).1 = v := by
      simp only [componentRelabel, getFromCache, hg]
    have hcache2 : ∀ x ∈ (componentRelabel process fp st s).2.cache.entries,
        x ∈ st.cache.entries := by
      intro x hx
      simp only [componentRelabel, getFromCache, hg, deleteFromCache] at hx
      by_cases hst : isStaleNaN s.value
      · rw [if_pos hst] at hx
        exact lruGet_mem (lruRemove_mem hx).1
      · rw [if_neg hst] at hx
        exact lruGet_mem hx
    obtain ⟨l, hl, hfl, hdisj⟩ := hc e hmem
    have hls : l = s.lbls := hinj l hl s.lbls hs (by rw [← hfl, hek, hid])
    subst hls
    constructor
    · rw [houts, ← hev]
      rcases hdisj with ⟨hk, hnone⟩ | ⟨cs, hk, hsome, hlbl⟩
      · rw [hnone]
        simp [pipelineOutput, directOutput, hk]
      · rw [hsome]
        simp only [pipelineOutput, directOutput, hk]
        by_cases hr : (process s.lbls).1 = []
        · rw [hlbl, hr]; simp
        · rw [hlbl]
          simp [hr]
    · intro x hx
      exact hc x (hcache2 x hx)

/-- Processing a stale-marker sample leaves no cache entry under the sample's
fingerprint, on the hit path and on the miss path alike. -/
theorem componentRelabel_stale_lookup_none (process : Labels → Labels × Bool)
    (fp : Labels → Nat) (st : RelabelState) (s : Series)
    (h : isStaleNaN s.value = true) :
    lruLookup (componentRelabel process fp st s).2.cache s.globalID = none := by
  rcases hg : (lruGet st.cache s.globalID).1 with _ | v
  · have hsnd := lruGet_snd_of_none hg
    simp only [componentRelabel, getFromCache, hg, hsnd, h, if_true, deleteFromCache,
      addToCache, labelsCopy]
    rcases (process s.lbls).2 with _ | _ <;>
      simp [lruRemove_lookup_none]
  · simp only [componentRelabel, getFromCache, hg, h, if_true, deleteFromCache]
    simp [lruRemove_lookup_none]

/-- When the cache has no entry under the sample's fingerprint, Component.relabel
takes the miss branch and increments the miss counter. -/
theorem componentRelabel_miss_counter (process : Labels → Labels × Bool)
    (fp : Labels → Nat) (st : RelabelState) (s : Series)
    (h : lruLookup st.cache s.globalID = none) :
    (componentRelabel process fp st s).2.cacheMisses = st.cacheMisses + 1 := by
  have hg := lruGet_fst_none h
  have hsnd := lruGet_snd_of_none hg
  simp only [componentRelabel, getFromCache, hg, hsnd, addToCache, deleteFromCache,
    labelsCopy]
  rcases (process s.lbls).2 with _ | _ <;>
    rcases isStaleNaN s.value with _ | _ <;> simp

/-- Feeding a sample list through Component.relabel yields, sample by sample,
exactly the direct application of the rules, for any start state whose cache is
consistent. -/
theorem runSamples_outputs (process : Labels → Labels × Bool) (fp : Labels → Nat)
    (L : List Labels)
    (hinj : ∀ l1 ∈ L, ∀ l2 ∈ L, fp l1 = fp l2 → l1 = l2)
    (hdrop : ∀ l ∈ L, (process l).2 = false → (process l).1 = [])
    (samples : List Series) :
    ∀ st : RelabelState, (∀ s ∈ samples, s.lbls ∈ L) →
      (∀ s ∈ samples, s.globalID = fp s.lbls) →
      CacheOkOn process fp L st.cache →
      (runSamples process fp st samples).1 =
        samples.map (fun s => directOutput process s.lbls) := by
  induction samples with
  | nil => intro st _ _ _; rfl
  | cons s rest ih =>
    intro st hmem hfp2 hcache
    have hstep := relabel_step process fp L hinj hdrop st s
      (hmem s (List.mem_cons_self s rest)) (hfp2 s (List.mem_cons_self s rest)) hcache
    have htail := ih (componentRelabel process fp st s).2
      (fun x hx => hmem x (List.mem_cons_of_mem s hx))
      (fun x hx => hfp2 x (List.mem_cons_of_mem s hx)) hstep.2
    simp only [runSamples, List.map_cons]
    rw [hstep.1, htail]

/-- C1: for every sequence of samples and a fixed rule set, the cache-fronted
relabel pipeline (Component.relabel over its LRU cache, started from a fresh
component state) produces for each sample exactly the output series that direct
application of relabel.Process to that sample's labels produces; and processing
a stale-marker sample removes the series' cache entry, so a following sample
with the same fingerprint takes the miss branch and re-runs the rules. The
hypotheses say that the label store's fingerprints are collision-free on the
label sets of the trace, that relabel.Process returns empty labels whenever it
drops, and that each sample carries the fingerprint of its own label set. -/
theorem relabel_cache_refines_direct (process : Labels → Labels × Bool)
    (fp : Labels → Nat) (samples : List Series) (cacheSize : Nat)
    (hinj : ∀ l1 ∈ samples.map Series.lbls, ∀ l2 ∈ samples.map Series.lbls,
      fp l1 = fp l2 → l1 = l2)
    (hdrop : ∀ l ∈ samples.map Series.lbls, (process l).2 = false → (process l).1 = [])
    (hfp : ∀ s ∈ samples, s.globalID = fp s.lbls) :
    (runSamples process fp (relabelInitState cacheSize) samples).1 =
      samples.map (fun s => directOutput process s.lbls) ∧
    (∀ (st : RelabelState) (s s2 : Series), isStaleNaN s.value = true →
      s2.globalID = s.globalID →
      lruLookup (componentRelabel process fp st s).2.cache s.globalID = none ∧
      (componentRelabel process fp (componentRelabel process fp st s).2 s2).2.cacheMisses =
        (componentRelabel process fp st s).2.cacheMisses + 1) := by
  constructor
  · exact runSamples_outputs process fp (samples.map Series.lbls) hinj hdrop samples
      (relabelInitState cacheSize)
      (fun s hs => List.mem_map_of_mem Series.lbls hs)
      hfp
      (fun e he => absurd he (List.not_mem_nil e))
  · intro st s s2 hstale hgid
    have h1 := componentRelabel_stale_lookup_none process fp st s hstale
    refine ⟨h1, ?_⟩
    exact componentRelabel_miss_counter process fp _ s2 (by rw [hgid]; exact h1)

/-- Witness for C1 at a concrete trace: one series, two live samples, a stale
marker, then a live sample again, under identity-keeping rules. -/
theorem relabel_cache_refines_direct_witness :
    (∀ l1 ∈ wSamples.map Series.lbls, ∀ l2 ∈ wSamples.map Series.lbls,
      wFp l1 = wFp l2 → l1 = l2) ∧
    (∀ l ∈ wSamples.map Series.lbls, (keepAllRules l).2 = false → (keepAllRules l).1 = []) ∧
    (∀ s ∈ wSamples, s.globalID = wFp s.lbls) ∧
    ((runSamples keepAllRules wFp (relabelInitState 100000) wSamples).1 =
      wSamples.map (fun s => directOutput keepAllRules s.lbls) ∧
    (∀ (st : RelabelState) (s s2 : Series), isStaleNaN s.value = true →
      s2.globalID = s.globalID →
      lruLookup (componentRelabel keepAllRules wFp st s).2.cache s.globalID = none ∧
      (componentRelabel keepAllRules wFp
          (componentRelabel keepAllRules wFp st s).2 s2).2.cacheMisses =
        (componentRelabel keepAllRules wFp st s).2.cacheMisses + 1)) :=
  ⟨by decide, by decide, by decide,
    relabel_cache_refines_direct keepAllRules wFp wSamples 100000
      (by decide) (by decide) (by decide)⟩

/-- Unfolding equation for the final state of runSamples on a first sample. -/
theorem runSamples_snd_cons (process : Labels → Labels × Bool) (fp : Labels → Nat)
    (st : RelabelState) (s : Series) (rest : List Series) :
    (runSamples process fp st (s :: rest)).2 =
      (runSamples process fp (componentRelabel process fp st s).2 rest).2 :=
  rfl

/-- One cached-drop hit of the S6 series: the nil sentinel is returned and only
the hit counter moves. -/
theorem relabelDropStep (h : Nat) :
    componentRelabel dropAllRules cFp (stAfterDrop h) sEnvDev = (none, stAfterDrop (h + 1)) :=
  rfl

/-- Replaying the dropped series k times from the post-first-sample state adds
k cache hits and nothing else. -/
theorem relabelDropRun (k : Nat) : ∀ h : Nat,
    (runSamples dropAllRules cFp (stAfterDrop h) (List.replicate k sEnvDev)).2 =
      stAfterDrop (h + k) := by
  induction k with
  | zero => intro h; rw [Nat.add_zero]; rfl
  | succ n ih =>
    intro h
    rw [List.replicate_succ]
    simp only [runSamples, relabelDropStep]
    rw [ih (h + 1)]
    congr 1
    omega

/-- Replaying the dropped series 999 more times from the post-first-sample
state ends with 999 cache hits. -/
theorem relabelDropRun999 :
    (runSamples dropAllRules cFp (stAfterDrop 0) (List.replicate 999 sEnvDev)).2 =
      stAfterDrop 999 := by
  have hr := relabelDropRun 999 0
  rw [Nat.zero_add] at hr
  exact hr

/-- The first sample of the dropped series: a miss that stores the nil sentinel. -/
theorem relabelDropFirst :
    componentRelabel dropAllRules cFp (relabelInitState 100000) sEnvDev =
      (some ⟨7, [], 0, 42⟩, stAfterDrop 0) :=
  rfl

/-- C2 evaluated at its failing input (the relabel.go drop-caching scenario S6):
the first sample of a series dropped by the rules is reported dropped, but the
second sample hits the cached nil drop sentinel, and the append hook then
dereferences that nil pointer at newseries.Lbls — a runtime panic instead of
the claimed "reported as dropped". At the Component.relabel level the counters
do behave as claimed: over 1000 samples the rules run once (miss counter 1)
while the hit counter reaches 999. -/
theorem relabel_drop_hit_nil_panic :
    (appendHook dropAllRules cFp false (relabelInitState 100000) sEnvDev).1 =
      HookResult.dropped ∧
    (appendHook dropAllRules cFp false
        (appendHook dropAllRules cFp false (relabelInitState 100000) sEnvDev).2
        sEnvDev).1 = HookResult.panicNilDeref ∧
    (runSamples dropAllRules cFp (relabelInitState 100000)
        (List.replicate 1000 sEnvDev)).2.cacheHits = 999 ∧
    (runSamples dropAllRules cFp (relabelInitState 100000)
        (List.replicate 1000 sEnvDev)).2.cacheMisses = 1 := by
  have hrun : (runSamples dropAllRules cFp (relabelInitState 100000)
      (List.replicate 1000 sEnvDev)).2 = stAfterDrop 999 := by
    have h1000 : (1000 : Nat) = 999 + 1 := by norm_num
    have hsplit : List.replicate 1000 sEnvDev = sEnvDev :: List.replicate 999 sEnvDev := by
      rw [h1000, List.replicate_succ]
    rw [hsplit, runSamples_snd_cons, relabelDropFirst]
    have hproj : ((some (⟨7, [], 0, 42⟩ : Series), stAfterDrop 0) :
        Option Series × RelabelState).2 = stAfterDrop 0 := rfl
    rw [hproj]
    exact relabelDropRun999
  refine ⟨rfl, rfl, ?_, ?_⟩
  · rw [hrun]; rfl
  · rw [hrun]; rfl

theorem lruGet_fst_of_lookup_some {c : LruCache} {k : Nat} {v : Option Series}
    (h : lruLookup c k = some v) : (lruGet c k).1 = some v := by
  unfold lruLookup at h
  unfold lruGet
  rcases hf : c.entries.find? (fun x => x.1 == k) with _ | a
  · rw [hf] at h; cases h
  · rw [hf] at h
    rw [hf]
    have hv : a.2 = v := by simpa using h
    simp only []
    rw [hv]

/-- C3: on a cache miss Component.relabel applies the rules to a copy of the
input label set (the copy is value-identical to the original, which the pure
embedding leaves untouched), stores the result in the cache — the kept series,
or the nil drop sentinel when the rules dropped it — and increments the miss
counter without touching the hit counter; on a hit it increments the hit
counter without touching the miss counter and returns the cached value. The
stored-entry clause is stated for non-stale samples (a stale marker deletes the
entry right after storing it) and needs a positive cache capacity. -/
theorem relabel_bookkeeping_on_miss_and_hit (process : Labels → Labels × Bool)
    (fp : Labels → Nat) (st : RelabelState) (s : Series) (hcap : 0 < st.cache.cap) :
    (lruLookup st.cache s.globalID = none →
      (componentRelabel process fp st s).2.cacheMisses = st.cacheMisses + 1 ∧
      (componentRelabel process fp st s).2.cacheHits = st.cacheHits ∧
      labelsCopy s.lbls = s.lbls ∧
      (componentRelabel process fp st s).1 =
        some (convertToSeries fp s.ts s.value (process (labelsCopy s.lbls)).1) ∧
      (isStaleNaN s.value = false →
        lruLookup (componentRelabel process fp st s).2.cache s.globalID =
          some (if (process (labelsCopy s.lbls)).2 = true then
            some (convertToSeries fp s.ts s.value (process (labelsCopy s.lbls)).1)
          else none))) ∧
    (∀ v, lruLookup st.cache s.globalID = some v →
      (componentRelabel process fp st s).2.cacheHits = st.cacheHits + 1 ∧
      (componentRelabel process fp st s).2.cacheMisses = st.cacheMisses ∧
      (componentRelabel process fp st s).1 = v) := by
  constructor
  · intro h
    have hg := lruGet_fst_none h
    have hsnd := lruGet_snd_of_none hg
    refine ⟨?_, ?_, rfl, ?_, ?_⟩
    · exact componentRelabel_miss_counter process fp st s h
    · simp only [componentRelabel, getFromCache, hg, hsnd, addToCache, deleteFromCache,
        labelsCopy]
      rcases (process s.lbls).2 with _ | _ <;>
        rcases isStaleNaN s.value with _ | _ <;> simp
    · simp only [componentRelabel, getFromCache, hg, hsnd, labelsCopy]
    · intro hstale
      simp only [componentRelabel, getFromCache, hg, hsnd, addToCache, deleteFromCache,
        labelsCopy, hstale]
      rcases hk : (process s.lbls).2 with _ | _ <;>
        simp [hk, lruAdd_lookup_self hcap]
  · intro v h
    have hg := lruGet_fst_of_lookup_some h
    refine ⟨?_, ?_, ?_⟩
    · simp only [componentRelabel, getFromCache, hg, deleteFromCache]
      rcases isStaleNaN s.value with _ | _ <;> simp
    · simp only [componentRelabel, getFromCache, hg, deleteFromCache]
      rcases isStaleNaN s.value with _ | _ <;> simp
    · simp only [componentRelabel, getFromCache, hg]

/-- Witness for C3: the first sample of the dropped series is a miss that
bumps the miss counter; replaying it against the populated cache is a hit that
bumps the hit counter and returns the cached nil sentinel. -/
theorem relabel_bookkeeping_witness :
    (componentRelabel dropAllRules cFp (relabelInitState 100000) sEnvDev).2.cacheMisses =
      (relabelInitState 100000).cacheMisses + 1 ∧
    (componentRelabel dropAllRules cFp (stAfterDrop 1) sEnvDev).2.cacheHits =
      (stAfterDrop 1).cacheHits + 1 ∧
    (componentRelabel dropAllRules cFp (stAfterDrop 1) sEnvDev).1 = none :=
  ⟨((relabel_bookkeeping_on_miss_and_hit dropAllRules cFp (relabelInitState 100000)
      sEnvDev (by decide)).1 (by decide)).1,
   ((relabel_bookkeeping_on_miss_and_hit dropAllRules cFp (stAfterDrop 1)
      sEnvDev (by decide)).2 none (by decide)).1,
   ((relabel_bookkeeping_on_miss_and_hit dropAllRules cFp (stAfterDrop 1)
      sEnvDev (by decide)).2 none (by decide)).2.2⟩

/-! ## Theorems about util.Unregisterer -/

/-- A successful Unregisterer.Unregister removes the collector from the
remembered set. -/
theorem uregUnregister_true_cs {σ : Type} (W : WrapReg σ) (u : Unregisterer σ)
    (c : Collector) (h : (uregUnregister W u c).1 = true) :
    (uregUnregister W u c).2.cs = u.cs.filter (fun y => y != c) := by
  unfold uregUnregister at h ⊢
  rcases hw : u.wrap with _ | w
  · simp only [hw] at h
    cases h
  · simp only [hw] at h ⊢
    rcases hb : (W.unregOp w c).1 with _ | _
    · simp only [hb] at h
      simp at h
    · simp only [hb]
      simp

/-- Failures reported by the UnregisterAll loop all come from the iterated set. -/
theorem unregisterAllGo_failures_sub {σ : Type} (W : WrapReg σ) :
    ∀ (l : List Collector) (u : Unregisterer σ) (x : Collector),
      x ∈ (unregisterAllGo W l u).1 → x ∈ l := by
  intro l
  induction l with
  | nil => intro u x hx; cases hx
  | cons c rest ih =>
    intro u x hx
    simp only [unregisterAllGo] at hx
    rcases hr : (uregUnregister W u c).1 with _ | _
    · rw [hr] at hx
      simp at hx
      rcases hx with rfl | hx2
      · exact List.mem_cons_self x rest
      · exact List.mem_cons_of_mem c (ih _ x hx2)
    · rw [hr] at hx
      simp at hx
      exact List.mem_cons_of_mem c (ih _ x hx)

/-- If the UnregisterAll loop reports no failure, every collector remaining in
the remembered set was there initially and is not among the iterated ones. -/
theorem unregisterAllGo_nil_cs {σ : Type} (W : WrapReg σ) :
    ∀ (l : List Collector) (u : Unregisterer σ), (unregisterAllGo W l u).1 = [] →
      ∀ x ∈ (unregisterAllGo W l u).2.cs, x ∈ u.cs ∧ x ∉ l := by
  intro l
  induction l with
  | nil =>
    intro u _ x hx
    exact ⟨hx, List.not_mem_nil x⟩
  | cons c rest ih =>
    intro u herr x hx
    simp only [unregisterAllGo] at herr hx
    rcases hr : (uregUnregister W u c).1 with _ | _
    · rw [hr] at herr
      simp at herr
    · rw [hr] at herr
      simp at herr
      have hx2 := ih (uregUnregister W u c).2 herr x hx
      rw [uregUnregister_true_cs W u c hr] at hx2
      have hmem := List.mem_filter.mp hx2.1
      refine ⟨hmem.1, ?_⟩
      intro hcons
      rcases List.mem_cons.mp hcons with rfl | hrest
      · simp at hmem
      · exact hx2.2 hrest

/-- C8: UnregisterAll iterates the remembered set, unregistering each collector
and aggregating every failure (one per failed collector, drawn from the set)
into the returned multi-error; when it returns nil — no failure — the
remembered set is empty afterwards. -/
theorem unregister_all_empties_remembered_set {σ : Type} (W : WrapReg σ)
    (u : Unregisterer σ) (h : (unregisterAll W u).1 = []) :
    (unregisterAll W u).2.cs = [] ∧ ∀ c ∈ (unregisterAll W u).1, c ∈ u.cs := by
  constructor
  · rw [List.eq_nil_iff_forall_not_mem]
    intro x hx
    have := unregisterAllGo_nil_cs W u.cs u h x hx
    exact this.2 this.1
  · intro c hc
    exact unregisterAllGo_failures_sub W u.cs u c hc

/-- Witness for C8: a two-collector set over an always-succeeding wrapped
registrar unregisters cleanly and the remembered set ends empty. -/
theorem unregister_all_witness :
    (unregisterAll wReg ⟨some [3, 5], [3, 5]⟩).1 = [] ∧
    ((unregisterAll wReg ⟨some [3, 5], [3, 5]⟩).2.cs = [] ∧
      ∀ c ∈ (unregisterAll wReg ⟨some [3, 5], [3, 5]⟩).1, c ∈ [3, 5]) :=
  ⟨by decide, unregister_all_empties_remembered_set wReg ⟨some [3, 5], [3, 5]⟩ (by decide)⟩

/-- Unregister reports exactly what the underlying registrar reports. -/
theorem uregUnregister_fst {σ : Type} (W : WrapReg σ) (u : Unregisterer σ)
    (c : Collector) (w2 : σ) (hw : u.wrap = some w2) :
    (uregUnregister W u c).1 = (W.unregOp w2 c).1 := by
  rcases hb : (W.unregOp w2 c).1 with _ | _ <;> simp [uregUnregister, hw, hb]

/-- Unregister leaves the wrapped registrar in its post-unregister state. -/
theorem uregUnregister_wrap {σ : Type} (W : WrapReg σ) (u : Unregisterer σ)
    (c : Collector) (w2 : σ) (hw : u.wrap = some w2) :
    (uregUnregister W u c).2.wrap = some (W.unregOp w2 c).2 := by
  rcases hb : (W.unregOp w2 c).1 with _ | _ <;> simp [uregUnregister, hw, hb]

/-- C9: Register delegates to the wrapped registrar; on wrapped success the
collector joins the remembered set exactly when it advertises at least one
descriptor (an unchecked collector is not remembered), on wrapped failure the
error is returned with the set unchanged. Unregister returns exactly what the
underlying registrar reports and forgets the collector on success. With an
idempotent underlying unregister, register-then-unregister-twice returns true
both times (scenario S4 / Test_UnregisterTwice). -/
theorem register_unregister_contract {σ : Type} (W : WrapReg σ) (dc : Collector → Nat)
    (u : Unregisterer σ) (c : Collector) (w : σ) (h : u.wrap = some w) :
    (∀ w2, W.regOp w c = .ok w2 →
      uregRegister W dc u c =
        (none, ⟨some w2, if dc c = 0 then u.cs else csInsert c u.cs⟩)) ∧
    (∀ e, W.regOp w c = .error e → uregRegister W dc u c = (some e, u)) ∧
    ((uregUnregister W u c).1 = (W.unregOp w c).1 ∧
      ((W.unregOp w c).1 = true →
        (uregUnregister W u c).2.cs = u.cs.filter (fun x => x != c))) ∧
    ((∀ (s : σ) (d : Collector), (W.unregOp s d).1 = true) → ∀ w2,
      W.regOp w c = .ok w2 →
      (uregUnregister W (uregRegister W dc u c).2 c).1 = true ∧
      (uregUnregister W (uregUnregister W (uregRegister W dc u c).2 c).2 c).1 = true) := by
  refine ⟨?_, ?_, ⟨?_, ?_⟩, ?_⟩
  · intro w2 hok
    by_cases hdc : dc c = 0
    · simp [uregRegister, h, hok, isUncheckedCollector, hdc]
    · simp [uregRegister, h, hok, isUncheckedCollector, hdc]
  · intro e herr
    simp [uregRegister, h, herr]
  · exact uregUnregister_fst W u c w h
  · intro htrue
    simp [uregUnregister, h, htrue]
  · intro hidem w2 hok
    have hwrap2 : (uregRegister W dc u c).2.wrap = some w2 := by
      by_cases hdc : dc c = 0 <;>
        simp [uregRegister, h, hok, isUncheckedCollector, hdc]
    constructor
    · rw [uregUnregister_fst W _ c w2 hwrap2]
      exact hidem w2 c
    · rw [uregUnregister_fst W _ c (W.unregOp w2 c).2
        (uregUnregister_wrap W _ c w2 hwrap2)]
      exact hidem (W.unregOp w2 c).2 c

/-- Witness for C9 over the idempotent list registrar: registering collector 3
and unregistering it twice returns true both times, and a registered collector
with a descriptor is remembered. -/
theorem register_unregister_witness :
    (Unregisterer.wrap (σ := List Collector) ⟨some [], []⟩ = some []) ∧
    (uregRegister wReg wDc ⟨some [], []⟩ 3 = (none, ⟨some [3], [3]⟩) ∧
      (uregUnregister wReg (uregRegister wReg wDc ⟨some [], []⟩ 3).2 3).1 = true ∧
      (uregUnregister wReg
        (uregUnregister wReg (uregRegister wReg wDc ⟨some [], []⟩ 3).2 3).2 3).1 = true) := by
  have hc := register_unregister_contract wReg wDc ⟨some [], []⟩ 3 [] rfl
  refine ⟨rfl, ?_, (hc.2.2.2 (fun s d => rfl) [3] rfl).1, (hc.2.2.2 (fun s d => rfl) [3] rfl).2⟩
  have h1 := hc.1 [3] rfl
  rw [h1]
  decide

/-! ## Theorems about ImportConfigNode -/

theorem mapFind_mapSet_self (m : List (String × Content)) (k : String) (v : Content) :
    mapFind (mapSet m k v) k = some v := by
  unfold mapFind mapSet
  rw [List.find?_cons]
  simp

theorem find?_key_filter (m : List (String × Content)) (k k2 : String) (h : k2 ≠ k) :
    (m.filter (fun e => e.1 != k)).find? (fun e => e.1 == k2) =
      m.find? (fun e => e.1 == k2) := by
  induction m with
  | nil => rfl
  | cons a as ih =>
    by_cases hak : a.1 = k
    · have hfilter : (a :: as).filter (fun e => e.1 != k) =
          as.filter (fun e => e.1 != k) := by
        simp [List.filter_cons, hak]
      have hkk2 : (a.1 == k2) = false := by
        rw [hak]
        exact beq_eq_false_iff_ne.mpr (Ne.symm h)
      rw [hfilter]
      conv_rhs => rw [List.find?_cons]
      rw [hkk2, ih]
    · have hfilter : (a :: as).filter (fun e => e.1 != k) =
          a :: as.filter (fun e => e.1 != k) := by
        simp [List.filter_cons, hak]
      rw [hfilter]
      rw [List.find?_cons]
      conv_rhs => rw [List.find?_cons]
      rcases hk2 : (a.1 == k2) with _ | _
      · rw [ih]
      · rfl

theorem mapFind_mapSet_ne (m : List (String × Content)) (k : String) (v : Content)
    (k2 : String) (h : k2 ≠ k) : mapFind (mapSet m k v) k2 = mapFind m k2 := by
  unfold mapFind mapSet
  rw [List.find?_cons]
  have hkk2 : ((k, v).1 == k2) = false := beq_eq_false_iff_ne.mpr (Ne.symm h)
  rw [hkk2, find?_key_filter m k k2 h]

theorem mapFind_foldl_not_mem (f : String → String) (cc : List (String × Content)) :
    ∀ (m : List (String × Content)) (k : String), (∀ kv ∈ cc, f kv.1 ≠ k) →
      mapFind (cc.foldl (fun m kv => mapSet m (f kv.1) kv.2) m) k = mapFind m k := by
  induction cc with
  | nil => intro m k _; rfl
  | cons a as ih =>
    intro m k h
    rw [List.foldl_cons]
    rw [ih _ k (fun kv hkv => h kv (List.mem_cons_of_mem a hkv))]
    exact mapFind_mapSet_ne m (f a.1) a.2 k (Ne.symm (h a (List.mem_cons_self a as)))

theorem mapFind_foldl_mapSet (f : String → String)
    (hf : ∀ a b : String, f a = f b → a = b) (cc : List (String × Content)) :
    ∀ m : List (String × Content), (cc.map Prod.fst).Nodup →
      ∀ (k : String) (v : Content), (k, v) ∈ cc →
        mapFind (cc.foldl (fun m kv => mapSet m (f kv.1) kv.2) m) (f k) = some v := by
  induction cc with
  | nil => intro m _ k v hkv; cases hkv
  | cons a as ih =>
    intro m hnd k v hkv
    rw [List.map_cons, List.nodup_cons] at hnd
    rw [List.foldl_cons]
    rcases List.mem_cons.mp hkv with heq | hmem
    · cases heq.symm
      have hknotin : ∀ kv ∈ as, f kv.1 ≠ f k := by
        intro kv hkv2 hc
        have hkeq : kv.1 = k := hf kv.1 k hc
        have hmem2 : kv.1 ∈ as.map Prod.fst := List.mem_map_of_mem Prod.fst hkv2
        rw [hkeq] at hmem2
        exact hnd.1 hmem2
      rw [mapFind_foldl_not_mem f as _ (f k) hknotin]
      exact mapFind_mapSet_self m (f k) v
    · exact ih _ hnd.2 k v hmem

theorem stringAppendLeftInj (p a b : String) (h : p ++ a = p ++ b) : a = b := by
  have hd := congrArg String.data h
  simp only [String.data_append] at hd
  exact String.ext (List.append_cancel_left hd)

theorem processDeclareBlock_flag (st : ImportNodeState) (label : String) (l r : Nat)
    (content : Content) :
    (processDeclareBlock st label l r content).inContentUpdate = st.inContentUpdate := by
  unfold processDeclareBlock
  split <;> rfl

theorem processImportBlock_flag (st : ImportNodeState) (label : String) :
    (processImportBlock st label).inContentUpdate = st.inContentUpdate := by
  unfold processImportBlock
  split <;> rfl

theorem processNodeBody_flag (stmts : List ModStmt) :
    ∀ (st : ImportNodeState) (content : Content),
      (processNodeBody st stmts content).inContentUpdate = st.inContentUpdate := by
  induction stmts with
  | nil => intro st content; rfl
  | cons stmt rest ih =>
    intro st content
    unfold processNodeBody at ih ⊢
    rw [List.foldl_cons]
    rcases stmt with ⟨lb, l, r⟩ | lb | _
    · rw [ih, processDeclareBlock_flag]
    · rw [ih, processImportBlock_flag]
    · rw [ih]

/-- In a successful content update the events are, in order: children are
evaluated, the controller is notified while inContentUpdate is still true, and
only then is the flag cleared; the final state has the flag cleared. -/
theorem onContentUpdate_success_trace (parseF : Content → Option (List ModStmt))
    (now : Nat) (st : ImportNodeState) (content : Content) (stmts : List ModStmt)
    (h : parseF content = some stmts) :
    (onContentUpdate parseF now st content).2 =
      [ImportEvent.evalChildren, ImportEvent.notifyDirty true, ImportEvent.clearFlag] ∧
    (onContentUpdate parseF now st content).1.inContentUpdate = false := by
  refine ⟨?_, ?_⟩ <;> simp [onContentUpdate, h, processNodeBody_flag]

/-- The merged declares map of OnChildrenContentUpdate does not depend on
whether the notification is suppressed. -/
theorem onChildrenContentUpdate_importedContent (st : ImportNodeState)
    (childLabel : String) (childContent : List (String × Content)) :
    (onChildrenContentUpdate st childLabel childContent).1.importedContent =
      childContent.foldl
        (fun m kv => mapSet m (childLabel ++ "." ++ kv.1) kv.2) st.importedContent := by
  by_cases h : st.inContentUpdate <;> simp [onChildrenContentUpdate, h]

/-- OnChildrenContentUpdate never changes the inContentUpdate flag. -/
theorem onChildrenContentUpdate_flag (st : ImportNodeState) (childLabel : String)
    (childContent : List (String × Content)) :
    (onChildrenContentUpdate st childLabel childContent).1.inContentUpdate =
      st.inContentUpdate := by
  by_cases h : st.inContentUpdate <;> simp [onChildrenContentUpdate, h]

/-- While a node's own content update is in flight, child update deliveries
merge content but emit no event at all. -/
theorem applyChildrenUpdates_inFlight
    (calls : List (String × List (String × Content))) :
    ∀ st : ImportNodeState, st.inContentUpdate = true →
      (applyChildrenUpdates st calls).2 = [] ∧
      (applyChildrenUpdates st calls).1.inContentUpdate = true := by
  induction calls with
  | nil => intro st h; exact ⟨rfl, h⟩
  | cons hd tl ih =>
    intro st h
    obtain ⟨cl, cc⟩ := hd
    have hev : (onChildrenContentUpdate st cl cc).2 = [] := by
      simp [onChildrenContentUpdate, h]
    have hfl : (onChildrenContentUpdate st cl cc).1.inContentUpdate = true := by
      rw [onChildrenContentUpdate_flag]; exact h
    have h2 := ih (onChildrenContentUpdate st cl cc).1 hfl
    simp only [applyChildrenUpdates]
    refine ⟨?_, h2.2⟩
    rw [hev, h2.1]
    rfl

/-- A successful revision of a child import delivers exactly one notification
to the controller through an idle root import node. -/
theorem childRevision_one_notification (parseF : Content → Option (List ModStmt))
    (now : Nat) (root child : ImportNodeState) (childLabel : String)
    (content : Content) (stmts : List ModStmt)
    (hroot : root.inContentUpdate = false) (hp : parseF content = some stmts) :
    (childRevision parseF now root child childLabel content).2 =
      [ImportEvent.notifyDirty false] := by
  have ht := onContentUpdate_success_trace parseF now child content stmts hp
  unfold childRevision
  simp only []
  rw [ht.1]
  simp only [deliverChildEvents]
  simp [onChildrenContentUpdate, hroot]

/-- C7: when onContentUpdate receives content that fails to parse, the imported
declares and the child map were already replaced by fresh empty maps before the
parse, so after the call both are empty (previously good declares are lost),
no children are evaluated, no notification is sent and lastUpdateTime is not
stamped. -/
theorem import_parse_error_drops_previous_content
    (parseF : Content → Option (List ModStmt)) (now : Nat) (st : ImportNodeState)
    (content : Content) (h : parseF content = none) :
    (onContentUpdate parseF now st content).1.importedContent = [] ∧
    (onContentUpdate parseF now st content).1.children = [] ∧
    (onContentUpdate parseF now st content).1.lastUpdateTime = st.lastUpdateTime ∧
    (onContentUpdate parseF now st content).2 = [ImportEvent.parseFailed] ∧
    ImportEvent.evalChildren ∉ (onContentUpdate parseF now st content).2 ∧
    (∀ b, ImportEvent.notifyDirty b ∉ (onContentUpdate parseF now st content).2) := by
  refine ⟨?_, ?_, ?_, ?_, ?_, ?_⟩ <;> simp [onContentUpdate, h]

/-- Witness for C7 on a concrete import node carrying previously good content. -/
theorem import_parse_error_witness :
    parseNone ['x'] = none ∧
    ((onContentUpdate parseNone 5 ⟨[("good", ['y'])], ["child"], false, 3⟩ ['x']).1.importedContent = [] ∧
     (onContentUpdate parseNone 5 ⟨[("good", ['y'])], ["child"], false, 3⟩ ['x']).1.children = [] ∧
     (onContentUpdate parseNone 5 ⟨[("good", ['y'])], ["child"], false, 3⟩ ['x']).1.lastUpdateTime =
       (⟨[("good", ['y'])], ["child"], false, 3⟩ : ImportNodeState).lastUpdateTime ∧
     (onContentUpdate parseNone 5 ⟨[("good", ['y'])], ["child"], false, 3⟩ ['x']).2 =
       [ImportEvent.parseFailed] ∧
     ImportEvent.evalChildren ∉
       (onContentUpdate parseNone 5 ⟨[("good", ['y'])], ["child"], false, 3⟩ ['x']).2 ∧
     (∀ b, ImportEvent.notifyDirty b ∉
       (onContentUpdate parseNone 5 ⟨[("good", ['y'])], ["child"], false, 3⟩ ['x']).2)) :=
  ⟨rfl, import_parse_error_drops_previous_content parseNone 5
    ⟨[("good", ['y'])], ["child"], false, 3⟩ ['x'] rfl⟩

/-- C10: a failed parse leaves inContentUpdate set, so every later child
content-update still merges the child declares (suppression changes only the
notification, not the merge) but emits no OnComponentUpdate, until a later
successful onContentUpdate clears the flag again. -/
theorem parse_error_leaves_flag_set (parseF : Content → Option (List ModStmt))
    (now : Nat) (st : ImportNodeState) (content : Content)
    (h : parseF content = none) :
    (onContentUpdate parseF now st content).1.inContentUpdate = true ∧
    (∀ calls : List (String × List (String × Content)),
      (applyChildrenUpdates (onContentUpdate parseF now st content).1 calls).2 = [] ∧
      (applyChildrenUpdates (onContentUpdate parseF now st content).1
        calls).1.inContentUpdate = true) ∧
    (∀ (s : ImportNodeState) (cl : String) (cc : List (String × Content)),
      (onChildrenContentUpdate s cl cc).1.importedContent =
        (onChildrenContentUpdate { s with inContentUpdate := false }
          cl cc).1.importedContent) ∧
    (∀ (now2 : Nat) (content2 : Content) (stmts : List ModStmt),
      parseF content2 = some stmts →
      (onContentUpdate parseF now2 (onContentUpdate parseF now st content).1
        content2).1.inContentUpdate = false) := by
  have hflag : (onContentUpdate parseF now st content).1.inContentUpdate = true := by
    simp [onContentUpdate, h]
  refine ⟨hflag, ?_, ?_, ?_⟩
  · intro calls
    exact applyChildrenUpdates_inFlight calls _ hflag
  · intro s cl cc
    rw [onChildrenContentUpdate_importedContent, onChildrenContentUpdate_importedContent]
  · intro now2 content2 stmts hp
    exact (onContentUpdate_success_trace parseF now2 _ content2 stmts hp).2

/-- Witness for C10 with a parse function that fails on empty content only. -/
theorem parse_error_flag_witness :
    parseNonEmpty [] = none ∧
    ((onContentUpdate parseNonEmpty 0 emptyImportNode []).1.inContentUpdate = true ∧
    (∀ calls : List (String × List (String × Content)),
      (applyChildrenUpdates (onContentUpdate parseNonEmpty 0 emptyImportNode []).1 calls).2 = [] ∧
      (applyChildrenUpdates (onContentUpdate parseNonEmpty 0 emptyImportNode []).1
        calls).1.inContentUpdate = true) ∧
    (∀ (s : ImportNodeState) (cl : String) (cc : List (String × Content)),
      (onChildrenContentUpdate s cl cc).1.importedContent =
        (onChildrenContentUpdate { s with inContentUpdate := false }
          cl cc).1.importedContent) ∧
    (∀ (now2 : Nat) (content2 : Content) (stmts : List ModStmt),
      parseNonEmpty content2 = some stmts →
      (onContentUpdate parseNonEmpty now2 (onContentUpdate parseNonEmpty 0 emptyImportNode []).1
        content2).1.inContentUpdate = false)) :=
  ⟨rfl, parse_error_leaves_flag_set parseNonEmpty 0 emptyImportNode [] rfl⟩

/-- C5 counterexample: in a concrete successful content update the controller
notification is emitted while inContentUpdate is still true, and the flag-clear
comes after the notification in the event order — no notification with the
flag already cleared exists, refuting "the flag is cleared before the
controller is notified". -/
theorem import_notify_before_clear_counterexample :
    (onContentUpdate parseOkNil 1 emptyImportNode []).2 =
      [ImportEvent.evalChildren, ImportEvent.notifyDirty true, ImportEvent.clearFlag] ∧
    ImportEvent.notifyDirty true ∈ (onContentUpdate parseOkNil 1 emptyImportNode []).2 ∧
    ImportEvent.notifyDirty false ∉ (onContentUpdate parseOkNil 1 emptyImportNode []).2 ∧
    (onContentUpdate parseOkNil 1 emptyImportNode []).2.indexOf
        (ImportEvent.notifyDirty true) <
      (onContentUpdate parseOkNil 1 emptyImportNode []).2.indexOf ImportEvent.clearFlag := by
  refine ⟨rfl, ?_, ?_, ?_⟩ <;> decide

/-- C5 amended: in every successful execution of onContentUpdate the controller
is notified first — while inContentUpdate is still set — and the flag is
cleared afterwards, as the last step; the returned state has the flag cleared. -/
theorem import_notify_then_clear_flag (parseF : Content → Option (List ModStmt))
    (now : Nat) (st : ImportNodeState) (content : Content) (stmts : List ModStmt)
    (h : parseF content = some stmts) :
    (onContentUpdate parseF now st content).2 =
      [ImportEvent.evalChildren, ImportEvent.notifyDirty true, ImportEvent.clearFlag] ∧
    (onContentUpdate parseF now st content).1.inContentUpdate = false :=
  onContentUpdate_success_trace parseF now st content stmts h

/-- Witness for the amended C5 at a concrete successful update. -/
theorem import_notify_then_clear_flag_witness :
    parseOkNil ['z'] = some [] ∧
    ((onContentUpdate parseOkNil 2 emptyImportNode ['z']).2 =
      [ImportEvent.evalChildren, ImportEvent.notifyDirty true, ImportEvent.clearFlag] ∧
     (onContentUpdate parseOkNil 2 emptyImportNode ['z']).1.inContentUpdate = false) :=
  ⟨rfl, import_notify_then_clear_flag parseOkNil 2 emptyImportNode ['z'] [] rfl⟩

/-- C6: a child content-update delivered while the parent's own update is in
flight merges the child's declares under childLabel.declareLabel keys but emits
no notification; delivered to an idle parent it emits exactly one; and a full
successful revision of a nested import produces exactly one OnComponentUpdate
notification from the root import node. -/
theorem import_children_update_coalescing (st : ImportNodeState) (childLabel : String)
    (childContent : List (String × Content)) (root child : ImportNodeState)
    (parseF : Content → Option (List ModStmt)) (now : Nat) (content : Content)
    (stmts : List ModStmt)
    (hnd : (childContent.map Prod.fst).Nodup)
    (hroot : root.inContentUpdate = false)
    (hp : parseF content = some stmts) :
    (st.inContentUpdate = true →
      (onChildrenContentUpdate st childLabel childContent).2 = []) ∧
    (st.inContentUpdate = false →
      (onChildrenContentUpdate st childLabel childContent).2 =
        [ImportEvent.notifyDirty false]) ∧
    (∀ (k : String) (v : Content), (k, v) ∈ childContent →
      mapFind (onChildrenContentUpdate st childLabel childContent).1.importedContent
        (childLabel ++ "." ++ k) = some v) ∧
    (childRevision parseF now root child childLabel content).2 =
      [ImportEvent.notifyDirty false] := by
  refine ⟨?_, ?_, ?_, ?_⟩
  · intro h; simp [onChildrenContentUpdate, h]
  · intro h; simp [onChildrenContentUpdate, h]
  · intro k v hkv
    rw [onChildrenContentUpdate_importedContent]
    exact mapFind_foldl_mapSet (fun x => childLabel ++ "." ++ x)
      (fun a b hab => stringAppendLeftInj (childLabel ++ ".") a b hab)
      childContent st.importedContent hnd k v hkv
  · exact childRevision_one_notification parseF now root child childLabel content
      stmts hroot hp

/-- Witness for C6 with one child declare and an idle root. -/
theorem import_children_update_witness :
    ((([("x", ['b'])] : List (String × Content)).map Prod.fst).Nodup) ∧
    (emptyImportNode.inContentUpdate = false) ∧
    (parseOkNil ['m'] = some []) ∧
    ((emptyImportNode.inContentUpdate = true →
      (onChildrenContentUpdate emptyImportNode "c" [("x", ['b'])]).2 = []) ∧
    (emptyImportNode.inContentUpdate = false →
      (onChildrenContentUpdate emptyImportNode "c" [("x", ['b'])]).2 =
        [ImportEvent.notifyDirty false]) ∧
    (∀ (k : String) (v : Content), (k, v) ∈ ([("x", ['b'])] : List (String × Content)) →
      mapFind (onChildrenContentUpdate emptyImportNode "c" [("x", ['b'])]).1.importedContent
        ("c" ++ "." ++ k) = some v) ∧
    (childRevision parseOkNil 4 emptyImportNode emptyImportNode "c" ['m']).2 =
      [ImportEvent.notifyDirty false]) :=
  ⟨by decide, rfl, rfl,
    import_children_update_coalescing emptyImportNode "c" [("x", ['b'])]
      emptyImportNode emptyImportNode parseOkNil 4 ['m'] [] (by decide) rfl rfl⟩

/-- C4 counterexample: for the module text declare "a" {x} (braces at byte
offsets 12 and 14), processDeclareBlock publishes the empty body — the Go slice
content[13:13] — although the verbatim text strictly between the braces is "x";
the code publishes one byte less than the claimed between-braces span. -/
theorem declare_strict_between_counterexample :
    (processDeclareBlock emptyImportNode "a" 12 14 c4content).importedContent =
      [("a", [])] ∧
    strictlyBetweenBraces c4content 12 14 = ['x'] ∧
    c4content.get? 12 = some (Char.ofNat 123) ∧
    c4content.get? 14 = some (Char.ofNat 125) ∧
    c4content.length = 15 ∧
    ¬ ((processDeclareBlock emptyImportNode "a" 12 14 c4content).importedContent =
        [("a", strictlyBetweenBraces c4content 12 14)]) := by
  refine ⟨?_, ?_, ?_, ?_, ?_, ?_⟩ <;> decide

/-- C4 amended: for a fresh declare label, processDeclareBlock publishes under
that label the Go slice content[lcurly+1 : rcurly-1] — the text strictly
between the braces with its final byte (the one just before the closing brace)
dropped — and leaves every other published declare and the child map unchanged. -/
theorem declare_publishes_body_minus_last_byte (st : ImportNodeState) (label : String)
    (l r : Nat) (content : Content)
    (hfresh : mapFind st.importedContent label = none)
    (hlr : l + 2 ≤ r) (hr : r ≤ content.length) :
    mapFind (processDeclareBlock st label l r content).importedContent label =
      some (goSlice content (l + 1) (r - 1)) ∧
    (∀ k, k ≠ label →
      mapFind (processDeclareBlock st label l r content).importedContent k =
        mapFind st.importedContent k) ∧
    goSlice content (l + 1) (r - 1) = (strictlyBetweenBraces content l r).dropLast ∧
    (processDeclareBlock st label l r content).children = st.children := by
  have hbranch : processDeclareBlock st label l r content =
      { st with importedContent :=
          mapSet st.importedContent label (goSlice content (l + 1) (r - 1)) } := by
    unfold processDeclareBlock
    rw [hfresh]
    rfl
  refine ⟨?_, ?_, ?_, ?_⟩
  · rw [hbranch]
    exact mapFind_mapSet_self st.importedContent label (goSlice content (l + 1) (r - 1))
  · intro k hk
    rw [hbranch]
    exact mapFind_mapSet_ne st.importedContent label (goSlice content (l + 1) (r - 1)) k hk
  · unfold goSlice strictlyBetweenBraces goSlice
    rw [List.dropLast_eq_take, List.length_take, List.take_take]
    congr 1
    have hdlen : (content.drop (l + 1)).length = content.length - (l + 1) := by
      simp
    rw [hdlen]
    omega
  · rw [hbranch]

/-- Witness for the amended C4 at the concrete declare "a" {x} module text. -/
theorem declare_publishes_body_witness :
    mapFind emptyImportNode.importedContent "a" = none ∧
    12 + 2 ≤ 14 ∧ 14 ≤ c4content.length ∧
    (mapFind (processDeclareBlock emptyImportNode "a" 12 14 c4content).importedContent
        "a" = some (goSlice c4content 13 13) ∧
     (∀ k, k ≠ "a" →
       mapFind (processDeclareBlock emptyImportNode "a" 12 14 c4content).importedContent
         k = mapFind emptyImportNode.importedContent k) ∧
     goSlice c4content 13 13 = (strictlyBetweenBraces c4content 12 14).dropLast ∧
     (processDeclareBlock emptyImportNode "a" 12 14 c4content).children =
       emptyImportNode.children) :=
  ⟨rfl, by decide, by decide,
    declare_publishes_body_minus_last_byte emptyImportNode "a" 12 14 c4content
      rfl (by decide) (by decide)⟩

end Agent
